import Mathlib

/-!
Formal model of the toolhead motion coordinator found in
`Firmware/usr/share/klipper/klippy/toolhead.py` of the Creality K2 Plus
firmware dump.

The Python module coordinates user move requests through a lookahead move
queue (`MoveQueue`), advances a batched print-time clock
(`ToolHead._update_move_time`), rebases the clock after idle periods
(`ToolHead._calc_print_time`), and runs a small state machine over the
special queuing states Main / Flushed / Priming / Drip.

The model below is a shallow embedding: every method that the verified
claims touch is translated into a pure Lean function over an explicit
state record `THState`.  Times, velocities and positions are rationals
(the Python floats only ever combine by `+`, `-`, `min`, `max` on the
verified paths).  External collaborators (the reactor clock, the MCU's
`estimated_print_time`, the native move planner `mymovie` and the
C `trapq` helpers) are supplied as explicit environment inputs; the parts
of their behaviour that matter are modelled from the specification, as
noted in the corresponding doc comments.
-/

namespace Klippy

/-- Lookahead flush countdown reset value (`LOOKAHEAD_FLUSH_TIME = 0.250`). -/
def LOOKAHEAD_FLUSH_TIME : ℚ := 1/4

/-- Minimum kinematic lead time (`MIN_KIN_TIME = 0.100`). -/
def MIN_KIN_TIME : ℚ := 1/10

/-- Print-time batch increment (`MOVE_BATCH_TIME = 0.500`). -/
def MOVE_BATCH_TIME : ℚ := 1/2

/-- Step+dir+step filter window (`SDS_CHECK_TIME = 0.001`). -/
def SDS_CHECK_TIME : ℚ := 1/1000

/-- Drip segment length (`DRIP_SEGMENT_TIME = 0.050`). -/
def DRIP_SEGMENT_TIME : ℚ := 1/20

/-- Drip lead time (`DRIP_TIME = 0.100`). -/
def DRIP_TIME : ℚ := 1/10

/-- Modelled from the spec: the reactor's `NEVER` timestamp.  The reactor
module is not part of the extracted sources; upstream klippy uses the huge
float 9999999999999999 so any comparison against a real print time treats
it as unreachable. -/
def REACTOR_NEVER : ℚ := 9999999999999999

/-- Entry of the Python `MoveQueue.queue` list.  The source stores pairs
`[move, callback_list]`; the fields of the native `PyMove` that the
verified claims depend on are its minimum move time (used for the
junction-flush countdown) and its total trapezoid duration
`accel_t + cruise_t + decel_t` (used to advance print time).  Callbacks
are identified by numeric tokens. -/
structure QMove where
  min_move_t : ℚ
  duration : ℚ
  callbacks : List ℕ
deriving DecidableEq

/-- Special queuing state: the source uses the strings `""` (main),
`"Flushed"`, `"Priming"` and `"Drip"`; the empty string is falsy in the
truth-value tests `if self.special_queuing_state:`. -/
inductive SQState
  | main
  | flushed
  | priming
  | drip
deriving DecidableEq

/-- Setting of the reactor flush timer (`reactor.update_timer` argument). -/
inductive TimerSet
  | never
  | now
  | sched (t : ℚ)
deriving DecidableEq

/-- Externally observable effects emitted by the modelled methods. -/
inductive Event
  | sync (now est print_time : ℚ)     -- `toolhead:sync_print_time`
  | sgFlush (t : ℚ)                   -- one step-generator service pass
  | cb (n : ℕ) (t : ℚ)                -- a lookahead callback invocation
  | setPos                            -- `toolhead:set_position`
  | flushTrig                         -- `flush(lazy=True)` fired by add_move
deriving DecidableEq

/-- State of the toolhead, restricted to the fields the claims are about.
The scratch buffer `double_array` is not modelled as state: slots 0-12 are
mirrors of these fields written immediately before each native call, and
slot 13 is the native validator's return code, which the model receives as
an environment input. -/
structure THState where
  print_time : ℚ
  last_kin_move_time : ℚ
  last_kin_flush_time : ℚ
  kin_flush_delay : ℚ
  special_queuing_state : SQState
  need_check_stall : ℚ
  idle_flush_print_time : ℚ
  print_stall : ℕ
  queue : List QMove
  junction_flush : ℚ
  flush_timer : TimerSet
  commanded_pos0 : ℚ
  commanded_pos1 : ℚ
  commanded_pos2 : ℚ
  commanded_pos3 : ℚ
  can_pause : Bool
  buffer_time_low : ℚ
  buffer_time_high : ℚ
  buffer_time_start : ℚ
  move_flush_time : ℚ
deriving DecidableEq

/-- Outcome signal of a modelled method: normal return, the internal
`DripModeEndSignal`, or a raised `command_error` tagged with the native
validator return code. -/
inductive Sig
  | ok
  | dripEnd
  | cmdErr (code : ℤ)
deriving DecidableEq

/-- Result of a modelled method: the state at return (or at the raise
point, for exceptions), emitted events, and the outcome signal. -/
structure Out where
  s : THState
  evs : List Event
  sig : Sig
deriving DecidableEq

/-- One probe of the `_update_drip_move_time` loop: the value of
`drip_completion.test()` and of `mcu.estimated_print_time` at that pass. -/
structure DripStep where
  test : Bool
  est : ℚ
deriving DecidableEq

/-- Environment consumed by a (possibly flushing) move-processing call:
the reactor clock and MCU estimate read by `_calc_print_time`, the drip
loop probes, and the native lazy flush count (see `flushCal`). -/
structure ProcEnv where
  now : ℚ
  est : ℚ
  drip : List DripStep
  lazyCount : ℕ
deriving DecidableEq

/-- Environment consumed by `_check_stall`: the reactor clock, the MCU
estimate read by the idle-flush bookkeeping branch, and the MCU estimates
read by the successive passes of the stall loop. -/
structure StallEnv where
  now : ℚ
  estIdle : ℚ
  ests : List ℚ
deriving DecidableEq

/-- Environment consumed by `ToolHead.move`: the native validator return
code left in `double_array[13]`, the planned move produced by
`mymovie.PyMove()`, and the environments of the possible nested lazy
flush and stall check. -/
structure MoveEnv where
  rc : ℤ
  m : QMove
  proc : ProcEnv
  stall : StallEnv
deriving DecidableEq

/-- Environment consumed by `ToolHead.drip_move`: environments for the
initial dwell, the submitted move, the drip-transmitting flush and the
final (or error path) `flush_step_generation`. -/
structure DripMoveEnv where
  dwellProc : ProcEnv
  dwellStall : StallEnv
  moveEnv : MoveEnv
  flushProc : ProcEnv
  endProc : ProcEnv
deriving DecidableEq

/-- Number of loop passes `_update_move_time` needs to raise `pt` to
`next` in `MOVE_BATCH_TIME` increments (as fuel, with a margin so that
the final check also runs; `Rat.floor` keeps the bound computable). -/
def iterCount (next pt : ℚ) : ℕ := (((next - pt) * 2).floor).toNat + 2

/-- Body of the `while 1` loop of `ToolHead._update_move_time`, with
explicit fuel.  Each pass advances `pt` by at most `MOVE_BATCH_TIME`,
services the step generators at `max lkft (pt - kfd)` (recorded in the
returned list) and breaks once `next` is reached.  The trapq
finalization, extruder update and MCU flushes of each pass act only on
external collaborators. -/
def updateGoF : ℕ → ℚ → ℚ → ℚ → ℚ → ℚ × List ℚ
  | 0, _lkft, _kfd, _next, pt => (pt, [])
  | fuel+1, lkft, kfd, next, pt =>
    let pt2 := min (pt + MOVE_BATCH_TIME) next
    let sg := max lkft (pt2 - kfd)
    if next ≤ pt2 then (pt2, [sg])
    else
      let r := updateGoF fuel lkft kfd next pt2
      (r.1, sg :: r.2)

/-- `ToolHead._update_move_time` loop with adequate fuel. -/
def updateMoveTimeLoop (lkft kfd next pt : ℚ) : ℚ × List ℚ :=
  updateGoF (iterCount next pt) lkft kfd next pt

/-- `ToolHead._update_move_time(next_print_time)` acting on the state. -/
def thUpdateMoveTime (s : THState) (next : ℚ) : THState × List Event :=
  let r := updateMoveTimeLoop s.last_kin_flush_time s.kin_flush_delay next s.print_time
  ({s with print_time := r.1}, r.2.map Event.sgFlush)

/-- Minimum print time computed by `ToolHead._calc_print_time` from the
MCU estimate `est` and the current state. -/
def minPrintTime (s : THState) (est : ℚ) : ℚ :=
  let kin_time := max (est + MIN_KIN_TIME) s.last_kin_flush_time + s.kin_flush_delay
  max (est + s.buffer_time_start) kin_time

/-- `ToolHead._calc_print_time`: rebase `print_time` when the toolhead has
been idle and emit `toolhead:sync_print_time`. -/
def thCalcPrintTime (s : THState) (now est : ℚ) : THState × List Event :=
  let min_print_time := minPrintTime s est
  if s.print_time < min_print_time then
    ({s with print_time := min_print_time}, [Event.sync now est min_print_time])
  else
    (s, [])

/-- `ToolHead._update_drip_move_time` loop over the finite list of drip
probes supplied by the environment (each probe is one pass of the source's
unbounded loop; the step-generator service events of the nested
`_update_move_time` calls are external effects elided here). -/
def dripGo (next : ℚ) : THState → List DripStep → THState × Sig
  | s, [] => (s, Sig.ok)
  | s, step :: rest =>
    if s.print_time < next then
      if step.test then (s, Sig.dripEnd)
      else
        let flush_delay := DRIP_TIME + s.move_flush_time + s.kin_flush_delay
        let wait_time := s.print_time - step.est - flush_delay
        if 0 < wait_time ∧ s.can_pause then dripGo next s rest
        else
          let npt := min (s.print_time + DRIP_SEGMENT_TIME) next
          dripGo next (thUpdateMoveTime s npt).1 rest
    else (s, Sig.ok)

/-- `ToolHead._process_moves(moves)`.  The native
`trapq_append_from_moveq` call is modelled from the spec
(TrapQBridge.append_batch): it appends the batch starting at the current
print time and returns that time advanced by the sum of the moves' total
durations.  The per-move lookahead callback dispatch present in upstream
klipper is commented out in this source, so no callback events are
emitted here. -/
def thProcessMoves (s : THState) (moves : List QMove) (env : ProcEnv) : Out :=
  let s1evs : THState × List Event :=
    if s.special_queuing_state ≠ SQState.main then
      let s0 :=
        if s.special_queuing_state ≠ SQState.drip then
          {s with special_queuing_state := SQState.main, need_check_stall := -1, flush_timer := TimerSet.now}
        else s
      thCalcPrintTime s0 env.now env.est
    else (s, [])
  let s1 := s1evs.1
  let next_move_time := s1.print_time + (moves.map QMove.duration).sum
  if s1.special_queuing_state = SQState.drip then
    let r := dripGo next_move_time s1 env.drip
    if r.2 = Sig.dripEnd then ⟨r.1, s1evs.2, Sig.dripEnd⟩
    else
      let u := thUpdateMoveTime r.1 next_move_time
      ⟨{u.1 with last_kin_move_time := next_move_time}, s1evs.2 ++ u.2, Sig.ok⟩
  else
    let u := thUpdateMoveTime s1 next_move_time
    ⟨{u.1 with last_kin_move_time := next_move_time}, s1evs.2 ++ u.2, Sig.ok⟩

/-- Modelled from the spec: the native `mymovie.Py_move_queue_flush_cal`,
which plans the queued moves and returns how many of them are ready to be
flushed.  A non-lazy flush hands over the whole queue; a lazy flush hands
over an unspecified prefix, supplied here as the environment value
`oracle`. -/
def flushCal (n : ℕ) (lazy : Bool) (oracle : ℕ) : ℕ :=
  if lazy then min oracle n else n

/-- `MoveQueue.flush(lazy)`: reset the junction-flush countdown, compute
the flush count, hand the prefix to `ToolHead._process_moves` and remove
it from the queue (`Py_move_queue_del` plus `del queue[:flush_count]`).
When `_process_moves` raises, the prefix removal does not happen. -/
def mqFlush (s : THState) (lazy : Bool) (env : ProcEnv) : Out :=
  let s := {s with junction_flush := LOOKAHEAD_FLUSH_TIME}
  if s.queue.isEmpty then ⟨s, [], Sig.ok⟩
  else
    let fc := flushCal s.queue.length lazy env.lazyCount
    if fc = 0 then ⟨s, [], Sig.ok⟩
    else
      let r := thProcessMoves s (s.queue.take fc) env
      if r.sig = Sig.ok then ⟨{r.s with queue := r.s.queue.drop fc}, r.evs, Sig.ok⟩
      else r

/-- `ToolHead.flush_step_generation()`. -/
def thFlushStepGeneration (s : THState) (env : ProcEnv) : Out :=
  let r := mqFlush s false env
  if r.sig ≠ Sig.ok then r
  else
    let t := r.s
    let t := {t with special_queuing_state := SQState.flushed, need_check_stall := -1,
                     flush_timer := TimerSet.never, junction_flush := t.buffer_time_high,
                     idle_flush_print_time := 0}
    let flush_time :=
      max (t.last_kin_move_time + t.kin_flush_delay) (t.print_time - t.kin_flush_delay)
    let t := {t with last_kin_flush_time := max t.last_kin_flush_time flush_time}
    let u := thUpdateMoveTime t (max t.print_time t.last_kin_flush_time)
    ⟨u.1, r.evs ++ u.2, Sig.ok⟩

/-- `ToolHead._flush_lookahead()`. -/
def thFlushLookahead (s : THState) (env : ProcEnv) : Out :=
  if s.special_queuing_state ≠ SQState.main then thFlushStepGeneration s env
  else mqFlush s false env

/-- `ToolHead.get_last_move_time()`; its Python return value is the
`print_time` of the resulting state. -/
def thGetLastMoveTime (s : THState) (env : ProcEnv) : Out :=
  let r := thFlushLookahead s env
  if r.sig ≠ Sig.ok then r
  else if r.s.special_queuing_state ≠ SQState.main then
    let c := thCalcPrintTime r.s env.now env.est
    ⟨c.1, r.evs ++ c.2, Sig.ok⟩
  else r

/-- Stall-wait loop of `ToolHead._check_stall` over the finite list of
MCU estimates supplied by the environment.  Returns `none` for the
cannot-pause early return (which sets `need_check_stall` to NEVER) and
`some est` with the estimate read on the exiting pass otherwise. -/
def stallLoop (pt bth : ℚ) (canp : Bool) : List ℚ → ℚ → Option ℚ
  | [], last => some last
  | e :: rest, _ =>
    if pt - e - bth ≤ 0 then some e
    else if canp then stallLoop pt bth canp rest e
    else none

/-- `ToolHead._check_stall()`. -/
def thCheckStall (s : THState) (env : StallEnv) : THState :=
  let s1 :=
    if s.special_queuing_state ≠ SQState.main then
      let t :=
        if s.idle_flush_print_time ≠ 0 then
          {s with print_stall :=
                    if env.estIdle < s.idle_flush_print_time then s.print_stall + 1
                    else s.print_stall,
                  idle_flush_print_time := 0}
        else s
      {t with special_queuing_state := SQState.priming, need_check_stall := -1, flush_timer := TimerSet.sched (env.now + 1/10)}
    else s
  match stallLoop s1.print_time s1.buffer_time_high s1.can_pause env.ests 0 with
  | none => {s1 with need_check_stall := REACTOR_NEVER}
  | some est =>
    if s1.special_queuing_state = SQState.main then
      {s1 with need_check_stall := est + s1.buffer_time_high + 1/10}
    else s1

/-- `ToolHead._flush_handler(eventtime)` timer callback; `est` is the MCU
estimate at `eventtime`.  The returned reactor deadline is reflected in
the `flush_timer` field.  An exception escaping the inner try block
triggers `invoke_shutdown`; the handler still returns NEVER. -/
def thFlushHandler (s : THState) (eventtime est : ℚ) (env : ProcEnv) : Out :=
  let print_time := s.print_time
  let buffer_time := print_time - est
  if s.buffer_time_low < buffer_time then
    ⟨{s with flush_timer := TimerSet.sched (eventtime + buffer_time - s.buffer_time_low)},
     [], Sig.ok⟩
  else
    let r := thFlushStepGeneration s env
    if r.sig ≠ Sig.ok then ⟨{r.s with flush_timer := TimerSet.never}, r.evs, r.sig⟩
    else
      let s2 :=
        if print_time ≠ r.s.print_time then {r.s with idle_flush_print_time := r.s.print_time}
        else r.s
      ⟨{s2 with flush_timer := TimerSet.never}, r.evs, Sig.ok⟩

/-- `MoveQueue.add_move(move)`: append `[move, []]`, return early when
this is the only queued move, otherwise run the junction-flush countdown
and fire a lazy flush when it reaches zero (`flushTrig` marks the call). -/
def thAddMove (s : THState) (mmt dur : ℚ) (env : ProcEnv) : Out :=
  let s := {s with queue := s.queue ++ [⟨mmt, dur, []⟩]}
  if s.queue.length = 1 then ⟨s, [], Sig.ok⟩
  else
    let s := {s with junction_flush := s.junction_flush - mmt}
    if s.junction_flush ≤ 0 then
      let r := mqFlush s true env
      ⟨r.s, Event.flushTrig :: r.evs, r.sig⟩
    else ⟨s, [], Sig.ok⟩

/-- Tail of `ToolHead.move` after the validator dispatch: queue the move
and run the stall check when `print_time > need_check_stall`. -/
def thMoveTail (s : THState) (env : MoveEnv) : Out :=
  let r := thAddMove s env.m.min_move_t env.m.duration env.proc
  if r.sig ≠ Sig.ok then r
  else if r.s.need_check_stall < r.s.print_time then
    ⟨thCheckStall r.s env.stall, r.evs, Sig.ok⟩
  else r

/-- `ToolHead.move(newpos, speed)`.  The native planner's return code in
`double_array[13]` drives the dispatch: `0` commits all four axes, `1`
commits only the extruder axis, `-1` silently drops the move, and
`-4, -2, -3, -5, -6` raise command errors (in that source order) before
the move is queued.  `record_z_pos` touches only the persisted Z file. -/
def thMove (s : THState) (np0 np1 np2 np3 speed : ℚ) (env : MoveEnv) : Out :=
  if env.rc = 0 then
    thMoveTail {s with commanded_pos0 := np0, commanded_pos1 := np1, commanded_pos2 := np2, commanded_pos3 := np3} env
  else if env.rc = 1 then
    thMoveTail {s with commanded_pos3 := np3} env
  else if env.rc = -4 then ⟨s, [], Sig.cmdErr (-4)⟩
  else if env.rc = -2 then ⟨s, [], Sig.cmdErr (-2)⟩
  else if env.rc = -3 then ⟨s, [], Sig.cmdErr (-3)⟩
  else if env.rc = -1 then ⟨s, [], Sig.ok⟩
  else if env.rc = -5 then ⟨s, [], Sig.cmdErr (-5)⟩
  else if env.rc = -6 then ⟨s, [], Sig.cmdErr (-6)⟩
  else thMoveTail s env

/-- `ToolHead.dwell(delay)`. -/
def thDwell (s : THState) (delay : ℚ) (env : ProcEnv) (senv : StallEnv) : Out :=
  let r := thGetLastMoveTime s env
  if r.sig ≠ Sig.ok then r
  else
    let next := r.s.print_time + max 0 delay
    let u := thUpdateMoveTime r.s next
    ⟨thCheckStall u.1 senv, r.evs ++ u.2, Sig.ok⟩

/-- `ToolHead.set_position(newpos)` (the `trapq_set_position` and
kinematics calls act on external collaborators). -/
def thSetPosition (s : THState) (np0 np1 np2 np3 : ℚ) (env : ProcEnv) : Out :=
  let r := thFlushStepGeneration s env
  if r.sig ≠ Sig.ok then r
  else
    ⟨{r.s with commanded_pos0 := np0, commanded_pos1 := np1, commanded_pos2 := np2, commanded_pos3 := np3},
     r.evs ++ [Event.setPos], Sig.ok⟩

/-- `ToolHead.wait_moves()`: flush the lookahead queue; the subsequent
wait loop only pauses the reactor and reads the MCU estimate. -/
def thWaitMoves (s : THState) (env : ProcEnv) : Out :=
  thFlushLookahead s env

/-- `ToolHead.register_lookahead_callback(callback)`: when the queue is
empty the callback is invoked at once with `get_last_move_time()`;
otherwise it is appended to the tail move's callback list. -/
def thRegisterLookahead (s : THState) (cbId : ℕ) (env : ProcEnv) : Out :=
  match s.queue.getLast? with
  | none =>
    let r := thGetLastMoveTime s env
    ⟨r.s, r.evs ++ [Event.cb cbId r.s.print_time], r.sig⟩
  | some last =>
    ⟨{s with queue := s.queue.dropLast ++ [{last with callbacks := last.callbacks ++ [cbId]}]},
     [], Sig.ok⟩

/-- Entry into the "Drip" state inside `ToolHead.drip_move`: flush timer
and stall check disabled, countdown reset to `buffer_time_high`. -/
def dripEnterState (t : THState) : THState :=
  {t with special_queuing_state := SQState.drip,
          need_check_stall := REACTOR_NEVER,
          flush_timer := TimerSet.never,
          junction_flush := t.buffer_time_high,
          idle_flush_print_time := 0}

/-- `ToolHead.drip_move(newpos, speed, drip_completion)`. -/
def thDripMove (s : THState) (np0 np1 np2 np3 speed : ℚ) (env : DripMoveEnv) : Out :=
  let r1 := thDwell s s.kin_flush_delay env.dwellProc env.dwellStall
  if r1.sig ≠ Sig.ok then r1
  else
    let r2 := mqFlush r1.s false env.flushProc
    if r2.sig ≠ Sig.ok then ⟨r2.s, r1.evs ++ r2.evs, r2.sig⟩
    else
      let s2 := dripEnterState r2.s
      let r3 := thMove s2 np0 np1 np2 np3 speed env.moveEnv
      match r3.sig with
      | Sig.cmdErr c =>
        let r4 := thFlushStepGeneration r3.s env.endProc
        ⟨r4.s, r1.evs ++ r2.evs ++ r3.evs ++ r4.evs, Sig.cmdErr c⟩
      | Sig.dripEnd => ⟨r3.s, r1.evs ++ r2.evs ++ r3.evs, Sig.dripEnd⟩
      | Sig.ok =>
        let r5 := mqFlush r3.s false env.flushProc
        match r5.sig with
        | Sig.dripEnd =>
          let s6 := {r5.s with queue := [], junction_flush := LOOKAHEAD_FLUSH_TIME}
          let r6 := thFlushStepGeneration s6 env.endProc
          ⟨r6.s, r1.evs ++ r2.evs ++ r3.evs ++ r5.evs ++ r6.evs, r6.sig⟩
        | Sig.cmdErr c => ⟨r5.s, r1.evs ++ r2.evs ++ r3.evs ++ r5.evs, Sig.cmdErr c⟩
        | Sig.ok =>
          let r6 := thFlushStepGeneration r5.s env.endProc
          ⟨r6.s, r1.evs ++ r2.evs ++ r3.evs ++ r5.evs ++ r6.evs, r6.sig⟩

/-- Initial toolhead state from `ToolHead.__init__` with the default
configuration values (`buffer_time_low=1.0`, `buffer_time_high=2.0`,
`buffer_time_start=0.25`, `move_flush_time=0.05`); the constructor ends
with `move_queue.set_flush_time(buffer_time_high)`. -/
def initState : THState where
  print_time := 0
  last_kin_move_time := 0
  last_kin_flush_time := 0
  kin_flush_delay := SDS_CHECK_TIME
  special_queuing_state := SQState.flushed
  need_check_stall := -1
  idle_flush_print_time := 0
  print_stall := 0
  queue := []
  junction_flush := 2
  flush_timer := TimerSet.never
  commanded_pos0 := 0
  commanded_pos1 := 0
  commanded_pos2 := 0
  commanded_pos3 := 0
  can_pause := true
  buffer_time_low := 1
  buffer_time_high := 2
  buffer_time_start := 1/4
  move_flush_time := 1/20

/-- Public toolhead operation together with its environment inputs. -/
inductive Op
  | opMove (np0 np1 np2 np3 speed : ℚ) (env : MoveEnv)
  | opDwell (delay : ℚ) (env : ProcEnv) (senv : StallEnv)
  | opFlushStepGeneration (env : ProcEnv)
  | opFlushHandler (eventtime est : ℚ) (env : ProcEnv)
  | opDripMove (np0 np1 np2 np3 speed : ℚ) (env : DripMoveEnv)
  | opSetPosition (np0 np1 np2 np3 : ℚ) (env : ProcEnv)
  | opWaitMoves (env : ProcEnv)
  | opGetLastMoveTime (env : ProcEnv)
  | opRegisterLookahead (cbId : ℕ) (env : ProcEnv)
  | opCheckStall (senv : StallEnv)
deriving DecidableEq

/-- Run one public operation. -/
def runOp (s : THState) : Op → Out
  | Op.opMove np0 np1 np2 np3 speed env => thMove s np0 np1 np2 np3 speed env
  | Op.opDwell delay env senv => thDwell s delay env senv
  | Op.opFlushStepGeneration env => thFlushStepGeneration s env
  | Op.opFlushHandler eventtime est env => thFlushHandler s eventtime est env
  | Op.opDripMove np0 np1 np2 np3 speed env => thDripMove s np0 np1 np2 np3 speed env
  | Op.opSetPosition np0 np1 np2 np3 env => thSetPosition s np0 np1 np2 np3 env
  | Op.opWaitMoves env => thWaitMoves s env
  | Op.opGetLastMoveTime env => thGetLastMoveTime s env
  | Op.opRegisterLookahead cbId env => thRegisterLookahead s cbId env
  | Op.opCheckStall senv => ⟨thCheckStall s senv, [], Sig.ok⟩

/-- State after one public operation (for exceptions, the state at the
raise point). -/
def step (s : THState) (op : Op) : THState := (runOp s op).s

/-- Reachability invariant used for the monotonicity claim: the last
kinematic move never ends after the scheduled print time, and every
queued move has a nonnegative planned duration. -/
def Inv (s : THState) : Prop :=
  s.last_kin_move_time ≤ s.print_time ∧ ∀ m ∈ s.queue, 0 ≤ m.duration

/-- Validity of an operation's environment: the native planner only hands
back moves with nonnegative trapezoid durations. -/
def OpValid : Op → Prop
  | Op.opMove _ _ _ _ _ env => 0 ≤ env.m.duration
  | Op.opDripMove _ _ _ _ _ env => 0 ≤ env.moveEnv.m.duration
  | _ => True

/-- Monotonicity of the three clock fields between two states: the
claimed relation between the state before and after one operation. -/
def Mono (a b : THState) : Prop :=
  a.print_time ≤ b.print_time ∧ a.last_kin_move_time ≤ b.last_kin_move_time ∧
  a.last_kin_flush_time ≤ b.last_kin_flush_time

/-- Recognizer for lookahead-callback invocation events. -/
def isCbEvent : Event → Bool
  | Event.cb _ _ => true
  | _ => false

/-- Python `int(float(x))` on a rational: truncation toward zero. -/
def pytrunc (q : ℚ) : ℤ := if 0 ≤ q then ⌊q⌋ else ⌈q⌉

/-- Velocity/acceleration limit state of the toolhead touched by the
`M204` and `SET_VELOCITY_LIMIT` handlers.  The source stores
`junction_deviation = scv^2 * (sqrt(2) - 1) / max_accel`; since
`sqrt(2) - 1` is a fixed positive constant, the field here holds the
rational factor `scv^2 / max_accel`, which determines the source value
uniquely. -/
structure Limits where
  max_velocity : ℚ
  max_accel : ℚ
  requested_accel_to_decel : ℚ
  max_accel_to_decel : ℚ
  square_corner_velocity : ℚ
  square_corner_max_velocity : ℚ
  junction_deviation : ℚ
  qmode_flag : Bool
deriving DecidableEq

/-- `ToolHead._calc_junction_deviation()`: recompute the junction
deviation from the current `square_corner_velocity` and `max_accel`
(stored up to the constant factor `sqrt(2) - 1`, see `Limits`) and clamp
`max_accel_to_decel` to `min(requested_accel_to_decel, max_accel)`. -/
def calcJunctionDeviation (L : Limits) : Limits :=
  {L with junction_deviation := L.square_corner_velocity^2 / L.max_accel, max_accel_to_decel := min L.requested_accel_to_decel L.max_accel}

/-- Outcome of a G-code handler: normal completion, the `key73` invalid
M204 info response, a `gcmd.get_float` bounds error
(`above=0` / `minval=0` violated), or a Python `NameError` from
evaluating an unbound variable. -/
inductive GOut
  | ok
  | invalidM204
  | paramError
  | nameError
deriving DecidableEq

/-- `ToolHead.cmd_M204(gcmd)` restricted to its effect on the limit state
(the virtual-sdcard M204 recording touches only external objects).
`S`, `P`, `T` are the command parameters; `gcmd.get('S', -1)` yields `-1`
when `S` is absent, and `gcmd.get_float(_, None, above=0.)` raises when a
present parameter is not positive. -/
def cmd_M204 (L : Limits) (S P T : Option ℚ) : Limits × GOut :=
  match S with
  | some s =>
    if pytrunc s ≠ -1 ∧ pytrunc s ≤ 100 then
      (calcJunctionDeviation {L with max_accel := 100}, GOut.ok)
    else if s ≤ 0 then (L, GOut.paramError)
    else (calcJunctionDeviation {L with max_accel := s}, GOut.ok)
  | none =>
    match P with
    | some p =>
      if p ≤ 0 then (L, GOut.paramError)
      else
        match T with
        | some t =>
          if t ≤ 0 then (L, GOut.paramError)
          else (calcJunctionDeviation {L with max_accel := min p t}, GOut.ok)
        | none => (L, GOut.invalidM204)
    | none =>
      match T with
      | some t => if t ≤ 0 then (L, GOut.paramError) else (L, GOut.invalidM204)
      | none => (L, GOut.invalidM204)

/-- Statement of claim C6's amended reading of `cmd_M204`, written from
the amended claim's words: with `S` given, coerce to 100 exactly when the
truncation toward zero of `S` is at most 100 and differs from -1, set the
acceleration to `S` when the truncation exceeds 100, and fail with a
parameter error when the truncation equals -1; with `S` absent, take
`min(P, T)` when both are given and positive, fail with a parameter error
when a given `P` or `T` is not positive, and respond `key73` when either
is missing. -/
def m204Amended (L : Limits) (S P T : Option ℚ) : Limits × GOut :=
  match S with
  | some s =>
    if pytrunc s ≤ 100 ∧ pytrunc s ≠ -1 then
      (calcJunctionDeviation {L with max_accel := 100}, GOut.ok)
    else if 100 < pytrunc s then (calcJunctionDeviation {L with max_accel := s}, GOut.ok)
    else (L, GOut.paramError)
  | none =>
    match P, T with
    | some p, some t =>
      if p ≤ 0 then (L, GOut.paramError)
      else if t ≤ 0 then (L, GOut.paramError)
      else (calcJunctionDeviation {L with max_accel := min p t}, GOut.ok)
    | some p, none => if p ≤ 0 then (L, GOut.paramError) else (L, GOut.invalidM204)
    | none, some t => if t ≤ 0 then (L, GOut.paramError) else (L, GOut.invalidM204)
    | none, none => (L, GOut.invalidM204)

/-- `ToolHead.cmd_SET_VELOCITY_LIMIT(gcmd)`.  `qmodeFlag` is the value
read from the `custom_macro` object and `qmodeMaxAccel`,
`qmodeMaxAccelToDecel` the `gcode_macro Qmode` variables (both 0 when the
config section is missing, matching the handler's local initialisation).
All four parameters are parsed first (`VELOCITY`, `ACCEL`,
`ACCEL_TO_DECEL` with `above=0.`, `SQUARE_CORNER_VELOCITY` with
`minval=0.`), then the limit fields are updated and
`_calc_junction_deviation` runs.  When no parameter was given the handler
evaluates `gcmd.respond_info(msg, log=False)` where the assignment to
`msg` is commented out, so the command dies with a Python `NameError`
instead of reporting the current limits. -/
def cmd_SET_VELOCITY_LIMIT (L : Limits) (qmodeFlag : Bool)
    (qmodeMaxAccel qmodeMaxAccelToDecel : ℚ)
    (velocity accel scv atd : Option ℚ) : Limits × GOut :=
  let L := {L with qmode_flag := qmodeFlag}
  if velocity.any (fun v => v ≤ 0) then (L, GOut.paramError)
  else if accel.any (fun a => a ≤ 0) then (L, GOut.paramError)
  else if scv.any (fun v => v < 0) then (L, GOut.paramError)
  else if atd.any (fun a => a ≤ 0) then (L, GOut.paramError)
  else
    let L :=
      match velocity with
      | some v => {L with max_velocity := v}
      | none => L
    let L :=
      match accel with
      | some a =>
        if qmodeFlag ∧ qmodeMaxAccel < a then {L with max_accel := qmodeMaxAccel}
        else {L with max_accel := a}
      | none => L
    let L :=
      match scv with
      | some v =>
        if L.square_corner_max_velocity < v then
          {L with square_corner_velocity := L.square_corner_max_velocity}
        else {L with square_corner_velocity := v}
      | none => L
    let L :=
      match atd with
      | some a =>
        if qmodeFlag ∧ qmodeMaxAccelToDecel < a then
          {L with requested_accel_to_decel := qmodeMaxAccelToDecel}
        else {L with requested_accel_to_decel := a}
      | none => L
    let L := calcJunctionDeviation L
    if velocity = none ∧ accel = none ∧ scv = none ∧ atd = none then (L, GOut.nameError)
    else (L, GOut.ok)

/-! ### Lemmas about the print-time update loop -/

theorem ratFloor_eq_intFloor (x : ℚ) : x.floor = ⌊x⌋ := by
  rw [Rat.floor_def]
  unfold Rat.floor
  split
  next h => rw [h]; simp
  next h => rfl

theorem iterCount_pos (next pt : ℚ) : 1 ≤ iterCount next pt := by
  unfold iterCount; omega

theorem iterCount_step (next pt : ℚ) (n : ℕ) (h : pt + MOVE_BATCH_TIME < next)
    (hn : iterCount next pt ≤ n + 1) :
    iterCount next (pt + MOVE_BATCH_TIME) ≤ n := by
  unfold iterCount MOVE_BATCH_TIME at *
  rw [ratFloor_eq_intFloor] at hn ⊢
  have h1 : (next - (pt + 1/2)) * 2 = (next - pt) * 2 - ((1 : ℤ) : ℚ) := by
    push_cast; ring
  rw [h1, Int.floor_sub_int]
  have h3 : (1:ℤ) ≤ ⌊(next - pt) * 2⌋ := by
    rw [Int.le_floor]; push_cast; linarith
  omega

theorem updateGoF_adequate (lkft kfd next : ℚ) :
    ∀ fuel pt, iterCount next pt ≤ fuel →
      (updateGoF fuel lkft kfd next pt).1 = next ∧
      (updateGoF fuel lkft kfd next pt).2 ≠ [] := by
  intro fuel
  induction fuel with
  | zero =>
    intro pt h
    exact absurd (le_trans (iterCount_pos next pt) h) (by omega)
  | succ n ih =>
    intro pt h
    simp only [updateGoF]
    by_cases hle : next ≤ min (pt + MOVE_BATCH_TIME) next
    · simp only [if_pos hle]
      exact ⟨le_antisymm (min_le_right _ _) hle, by simp⟩
    · simp only [if_neg hle]
      have hmin : min (pt + MOVE_BATCH_TIME) next < next := not_le.mp hle
      have hlt : pt + MOVE_BATCH_TIME < next := by
        rcases min_lt_iff.mp hmin with h' | h'
        · exact h'
        · exact absurd h' (lt_irrefl _)
      rw [min_eq_left (le_of_lt hlt)]
      have := ih (pt + MOVE_BATCH_TIME) (iterCount_step next pt n hlt h)
      exact ⟨this.1, by simp⟩

theorem updateMoveTimeLoop_fst (lkft kfd next pt : ℚ) :
    (updateMoveTimeLoop lkft kfd next pt).1 = next :=
  (updateGoF_adequate lkft kfd next _ pt le_rfl).1

theorem updateMoveTimeLoop_ne_nil (lkft kfd next pt : ℚ) :
    (updateMoveTimeLoop lkft kfd next pt).2 ≠ [] :=
  (updateGoF_adequate lkft kfd next _ pt le_rfl).2

theorem thUpdateMoveTime_fst (s : THState) (next : ℚ) :
    (thUpdateMoveTime s next).1 = {s with print_time := next} := by
  simp only [thUpdateMoveTime]
  rw [updateMoveTimeLoop_fst]

theorem thUpdateMoveTime_evs_ne_nil (s : THState) (next : ℚ) :
    (thUpdateMoveTime s next).2 ≠ [] := by
  simp only [thUpdateMoveTime]
  simp [updateMoveTimeLoop_ne_nil]

/-! ### Shape lemmas for the modelled methods -/

theorem thCalcPrintTime_fst (s : THState) (now est : ℚ) :
    (thCalcPrintTime s now est).1 =
      {s with print_time := max s.print_time (minPrintTime s est)} := by
  by_cases h : s.print_time < minPrintTime s est
  · simp only [thCalcPrintTime, if_pos h]
    rw [max_eq_right (le_of_lt h)]
  · simp only [thCalcPrintTime, if_neg h]
    rw [max_eq_left (not_lt.mp h)]

theorem dripGo_shape (next : ℚ) (env : List DripStep) :
    ∀ s : THState, ∃ p,
      (dripGo next s env).1 = {s with print_time := p} ∧ s.print_time ≤ p := by
  induction env with
  | nil => intro s; exact ⟨s.print_time, rfl, le_rfl⟩
  | cons stp rest ih =>
    intro s
    simp only [dripGo]
    split
    next h1 =>
      split
      next h2 => exact ⟨s.print_time, rfl, le_rfl⟩
      next h2 =>
        split
        next h3 => exact ih s
        next h3 =>
          have hnpt : s.print_time ≤ min (s.print_time + DRIP_SEGMENT_TIME) next := by
            refine le_min (by unfold DRIP_SEGMENT_TIME; linarith) (le_of_lt h1)
          rw [thUpdateMoveTime_fst]
          obtain ⟨p, hp, hle⟩ :=
            ih {s with print_time := min (s.print_time + DRIP_SEGMENT_TIME) next}
          exact ⟨p, hp, le_trans hnpt hle⟩
    next h1 => exact ⟨s.print_time, rfl, le_rfl⟩

theorem sum_durations_nonneg (moves : List QMove)
    (hd : ∀ m ∈ moves, 0 ≤ m.duration) :
    0 ≤ (moves.map QMove.duration).sum := by
  apply List.sum_nonneg
  intro x hx
  obtain ⟨m, hm, rfl⟩ := List.mem_map.mp hx
  exact hd m hm

theorem thProcessMoves_shape (s : THState) (moves : List QMove) (env : ProcEnv)
    (hd : 0 ≤ (moves.map QMove.duration).sum)
    (hlk : s.last_kin_move_time ≤ s.print_time) :
    ∃ sq nc tm p l,
      (thProcessMoves s moves env).s =
        {s with special_queuing_state := sq, need_check_stall := nc, flush_timer := tm, print_time := p, last_kin_move_time := l} ∧
      s.print_time ≤ p ∧ s.last_kin_move_time ≤ l ∧ l ≤ p := by
  cases hsq : s.special_queuing_state with
  | main =>
    refine ⟨SQState.main, s.need_check_stall, s.flush_timer,
      s.print_time + (moves.map QMove.duration).sum,
      s.print_time + (moves.map QMove.duration).sum, ?_, by linarith, by linarith, le_rfl⟩
    simp only [thProcessMoves, hsq, ne_eq, eq_self_iff_true, not_true_eq_false,
      reduceCtorEq, not_false_eq_true, if_true, if_false, ite_true, ite_false,
      thCalcPrintTime_fst, thUpdateMoveTime_fst]
  | flushed =>
    have hmax := le_max_left s.print_time (minPrintTime s env.est)
    refine ⟨SQState.main, -1, TimerSet.now,
      max s.print_time (minPrintTime s env.est) + (moves.map QMove.duration).sum,
      max s.print_time (minPrintTime s env.est) + (moves.map QMove.duration).sum,
      ?_, by linarith, by linarith, le_rfl⟩
    simp only [thProcessMoves, hsq, ne_eq, eq_self_iff_true, not_true_eq_false,
      reduceCtorEq, not_false_eq_true, if_true, if_false, ite_true, ite_false,
      thCalcPrintTime_fst, thUpdateMoveTime_fst]
    rfl
  | priming =>
    have hmax := le_max_left s.print_time (minPrintTime s env.est)
    refine ⟨SQState.main, -1, TimerSet.now,
      max s.print_time (minPrintTime s env.est) + (moves.map QMove.duration).sum,
      max s.print_time (minPrintTime s env.est) + (moves.map QMove.duration).sum,
      ?_, by linarith, by linarith, le_rfl⟩
    simp only [thProcessMoves, hsq, ne_eq, eq_self_iff_true, not_true_eq_false,
      reduceCtorEq, not_false_eq_true, if_true, if_false, ite_true, ite_false,
      thCalcPrintTime_fst, thUpdateMoveTime_fst]
    rfl
  | drip =>
    have hmax := le_max_left s.print_time (minPrintTime s env.est)
    simp only [thProcessMoves, hsq, ne_eq, eq_self_iff_true, not_true_eq_false,
      reduceCtorEq, not_false_eq_true, if_true, if_false, ite_true, ite_false,
      thCalcPrintTime_fst, thUpdateMoveTime_fst]
    obtain ⟨q, hq, hqle⟩ :=
      dripGo_shape (max s.print_time (minPrintTime s env.est) +
        (moves.map QMove.duration).sum) env.drip
        {s with print_time := max s.print_time (minPrintTime s env.est)}
    rw [hsq] at hq
    have h1 : max s.print_time (minPrintTime s env.est) ≤ q := hqle
    split
    next hde =>
      refine ⟨SQState.drip, s.need_check_stall, s.flush_timer, q, s.last_kin_move_time,
        ?_, by linarith, le_rfl, by linarith⟩
      rw [hq]
    next hde =>
      refine ⟨SQState.drip, s.need_check_stall, s.flush_timer,
        max s.print_time (minPrintTime s env.est) + (moves.map QMove.duration).sum,
        max s.print_time (minPrintTime s env.est) + (moves.map QMove.duration).sum,
        ?_, by linarith, by linarith, le_rfl⟩
      rw [hq]

theorem mqFlush_shape (s : THState) (lazy : Bool) (env : ProcEnv)
    (hd : ∀ m ∈ s.queue, 0 ≤ m.duration)
    (hlk : s.last_kin_move_time ≤ s.print_time) :
    ∃ sq nc tm p l q2,
      (mqFlush s lazy env).s =
        {s with special_queuing_state := sq, need_check_stall := nc, flush_timer := tm,
                print_time := p, last_kin_move_time := l, queue := q2,
                junction_flush := LOOKAHEAD_FLUSH_TIME} ∧
      s.print_time ≤ p ∧ s.last_kin_move_time ≤ l ∧ l ≤ p ∧
      (∀ m ∈ q2, 0 ≤ m.duration) := by
  by_cases hq : s.queue.isEmpty
  · refine ⟨s.special_queuing_state, s.need_check_stall, s.flush_timer, s.print_time,
      s.last_kin_move_time, s.queue, ?_, le_rfl, le_rfl, hlk, hd⟩
    simp only [mqFlush, hq, Bool.false_eq_true, eq_self_iff_true, not_true_eq_false,
      not_false_eq_true, if_true, if_false, ite_true, ite_false]
  · by_cases hfc : flushCal s.queue.length lazy env.lazyCount = 0
    · refine ⟨s.special_queuing_state, s.need_check_stall, s.flush_timer, s.print_time,
        s.last_kin_move_time, s.queue, ?_, le_rfl, le_rfl, hlk, hd⟩
      simp only [mqFlush, hq, hfc, Bool.false_eq_true, eq_self_iff_true, not_true_eq_false,
        not_false_eq_true, if_true, if_false, ite_true, ite_false]
    · have hd2 : 0 ≤ ((s.queue.take (flushCal s.queue.length lazy env.lazyCount)).map
          QMove.duration).sum :=
        sum_durations_nonneg _ (fun m hm => hd m (List.take_subset _ _ hm))
      obtain ⟨sq, nc, tm, p, l, hshape, hp, hl, hlp⟩ :=
        thProcessMoves_shape {s with junction_flush := LOOKAHEAD_FLUSH_TIME}
          (s.queue.take (flushCal s.queue.length lazy env.lazyCount)) env hd2 hlk
      simp only [mqFlush, hq, hfc, Bool.false_eq_true, eq_self_iff_true, not_true_eq_false,
        not_false_eq_true, if_true, if_false, ite_true, ite_false]
      split
      next hsig =>
        refine ⟨sq, nc, tm, p, l,
          s.queue.drop (flushCal s.queue.length lazy env.lazyCount), ?_, hp, hl, hlp,
          fun m hm => hd m (List.drop_subset _ _ hm)⟩
        rw [hshape]
      next hsig =>
        refine ⟨sq, nc, tm, p, l, s.queue, ?_, hp, hl, hlp, hd⟩
        rw [hshape]

theorem thFlushStepGeneration_shape (s : THState) (env : ProcEnv)
    (hd : ∀ m ∈ s.queue, 0 ≤ m.duration)
    (hlk : s.last_kin_move_time ≤ s.print_time) :
    ∃ p l q2,
      s.print_time ≤ p ∧ s.last_kin_move_time ≤ l ∧ l ≤ p ∧
      (∀ m ∈ q2, 0 ≤ m.duration) ∧
      (((thFlushStepGeneration s env).sig = Sig.ok ∧
        (thFlushStepGeneration s env).s =
          {s with special_queuing_state := SQState.flushed, need_check_stall := -1,
                  flush_timer := TimerSet.never, junction_flush := s.buffer_time_high,
                  idle_flush_print_time := 0, queue := q2,
                  print_time := max p (max s.last_kin_flush_time
                    (max (l + s.kin_flush_delay) (p - s.kin_flush_delay))),
                  last_kin_move_time := l,
                  last_kin_flush_time := max s.last_kin_flush_time
                    (max (l + s.kin_flush_delay) (p - s.kin_flush_delay))}) ∨
       ((thFlushStepGeneration s env).sig ≠ Sig.ok ∧
        ∃ sq nc tm,
          (thFlushStepGeneration s env).s =
            {s with special_queuing_state := sq, need_check_stall := nc,
                    flush_timer := tm, print_time := p, last_kin_move_time := l,
                    queue := q2, junction_flush := LOOKAHEAD_FLUSH_TIME})) := by
  obtain ⟨sq, nc, tm, p, l, q2, hsh, hp, hl, hlp, hq2⟩ := mqFlush_shape s false env hd hlk
  refine ⟨p, l, q2, hp, hl, hlp, hq2, ?_⟩
  simp only [thFlushStepGeneration]
  split
  next hsig =>
    right
    exact ⟨hsig, sq, nc, tm, hsh⟩
  next hsig =>
    left
    rw [hsh, thUpdateMoveTime_fst]
    exact ⟨rfl, rfl⟩

theorem thCheckStall_shape (s : THState) (env : StallEnv) :
    ∃ sq nc tm ps idle,
      thCheckStall s env =
        {s with special_queuing_state := sq, need_check_stall := nc, flush_timer := tm, print_stall := ps, idle_flush_print_time := idle} := by
  simp only [thCheckStall]
  repeat' split
  all_goals exact ⟨_, _, _, _, _, rfl⟩

/-! ### Monotonicity of each modelled method -/

theorem Mono.refl (a : THState) : Mono a a := ⟨le_rfl, le_rfl, le_rfl⟩

theorem Mono.trans {a b c : THState} (h1 : Mono a b) (h2 : Mono b c) : Mono a c :=
  ⟨h1.1.trans h2.1, h1.2.1.trans h2.2.1, h1.2.2.trans h2.2.2⟩

theorem monoInv_mqFlush (s : THState) (lazy : Bool) (env : ProcEnv) (hI : Inv s) :
    Mono s (mqFlush s lazy env).s ∧ Inv (mqFlush s lazy env).s := by
  obtain ⟨hlk, hd⟩ := hI
  obtain ⟨sq, nc, tm, p, l, q2, hsh, hp, hl, hlp, hq2⟩ := mqFlush_shape s lazy env hd hlk
  rw [hsh]
  exact ⟨⟨hp, hl, le_rfl⟩, hlp, hq2⟩

theorem monoInv_fsg (s : THState) (env : ProcEnv) (hI : Inv s) :
    Mono s (thFlushStepGeneration s env).s ∧ Inv (thFlushStepGeneration s env).s := by
  obtain ⟨hlk, hd⟩ := hI
  obtain ⟨p, l, q2, hp, hl, hlp, hq2, hcase⟩ := thFlushStepGeneration_shape s env hd hlk
  rcases hcase with ⟨_, hsh⟩ | ⟨_, sq, nc, tm, hsh⟩
  · rw [hsh]
    exact ⟨⟨hp.trans (le_max_left _ _), hl, le_max_left _ _⟩,
      hlp.trans (le_max_left _ _), hq2⟩
  · rw [hsh]
    exact ⟨⟨hp, hl, le_rfl⟩, hlp, hq2⟩

theorem monoInv_checkStall (s : THState) (env : StallEnv) (hI : Inv s) :
    Mono s (thCheckStall s env) ∧ Inv (thCheckStall s env) := by
  obtain ⟨sq, nc, tm, ps, idle, hsh⟩ := thCheckStall_shape s env
  rw [hsh]
  exact ⟨Mono.refl s, hI.1, hI.2⟩

theorem monoInv_calc (s : THState) (now est : ℚ) (hI : Inv s) :
    Mono s (thCalcPrintTime s now est).1 ∧ Inv (thCalcPrintTime s now est).1 := by
  rw [thCalcPrintTime_fst]
  exact ⟨⟨le_max_left _ _, le_rfl, le_rfl⟩, hI.1.trans (le_max_left _ _), hI.2⟩

theorem monoInv_updateAt (s : THState) (next : ℚ) (h : s.print_time ≤ next) (hI : Inv s) :
    Mono s (thUpdateMoveTime s next).1 ∧ Inv (thUpdateMoveTime s next).1 := by
  rw [thUpdateMoveTime_fst]
  exact ⟨⟨h, le_rfl, le_rfl⟩, hI.1.trans h, hI.2⟩

theorem monoInv_flushLookahead (s : THState) (env : ProcEnv) (hI : Inv s) :
    Mono s (thFlushLookahead s env).s ∧ Inv (thFlushLookahead s env).s := by
  unfold thFlushLookahead
  split
  · exact monoInv_fsg s env hI
  · exact monoInv_mqFlush s false env hI

theorem monoInv_getLastMoveTime (s : THState) (env : ProcEnv) (hI : Inv s) :
    Mono s (thGetLastMoveTime s env).s ∧ Inv (thGetLastMoveTime s env).s := by
  have h1 := monoInv_flushLookahead s env hI
  simp only [thGetLastMoveTime]
  split
  · exact h1
  · split
    · have h2 := monoInv_calc (thFlushLookahead s env).s env.now env.est h1.2
      exact ⟨h1.1.trans h2.1, h2.2⟩
    · exact h1

theorem monoInv_addMove (s : THState) (mmt dur : ℚ) (env : ProcEnv)
    (hdur : 0 ≤ dur) (hI : Inv s) :
    Mono s (thAddMove s mmt dur env).s ∧ Inv (thAddMove s mmt dur env).s := by
  have hq : ∀ m ∈ s.queue ++ [(⟨mmt, dur, []⟩ : QMove)], 0 ≤ m.duration := by
    intro m hm
    rcases List.mem_append.mp hm with h | h
    · exact hI.2 m h
    · simp only [List.mem_singleton] at h
      subst h
      exact hdur
  simp only [thAddMove]
  split
  · exact ⟨Mono.refl s, hI.1, hq⟩
  · split
    · exact monoInv_mqFlush _ true env ⟨hI.1, hq⟩
    · exact ⟨Mono.refl s, hI.1, hq⟩

theorem monoInv_moveTail (s : THState) (env : MoveEnv)
    (hdur : 0 ≤ env.m.duration) (hI : Inv s) :
    Mono s (thMoveTail s env).s ∧ Inv (thMoveTail s env).s := by
  have h1 := monoInv_addMove s env.m.min_move_t env.m.duration env.proc hdur hI
  simp only [thMoveTail]
  split
  · exact h1
  · split
    · have h2 := monoInv_checkStall
        (thAddMove s env.m.min_move_t env.m.duration env.proc).s env.stall h1.2
      exact ⟨h1.1.trans h2.1, h2.2⟩
    · exact h1

theorem monoInv_move (s : THState) (np0 np1 np2 np3 speed : ℚ) (env : MoveEnv)
    (hdur : 0 ≤ env.m.duration) (hI : Inv s) :
    Mono s (thMove s np0 np1 np2 np3 speed env).s ∧
    Inv (thMove s np0 np1 np2 np3 speed env).s := by
  simp only [thMove]
  split_ifs
  case pos => exact monoInv_moveTail _ env hdur hI
  case pos => exact monoInv_moveTail _ env hdur hI
  all_goals first
    | exact ⟨Mono.refl s, hI⟩
    | exact monoInv_moveTail s env hdur hI

theorem monoInv_dwell (s : THState) (delay : ℚ) (env : ProcEnv) (senv : StallEnv)
    (hI : Inv s) :
    Mono s (thDwell s delay env senv).s ∧ Inv (thDwell s delay env senv).s := by
  have h1 := monoInv_getLastMoveTime s env hI
  simp only [thDwell]
  split
  · exact h1
  · have h2 := monoInv_updateAt (thGetLastMoveTime s env).s
      ((thGetLastMoveTime s env).s.print_time + max 0 delay)
      (le_add_of_nonneg_right (le_max_left 0 delay)) h1.2
    have h3 := monoInv_checkStall
      (thUpdateMoveTime (thGetLastMoveTime s env).s
        ((thGetLastMoveTime s env).s.print_time + max 0 delay)).1 senv h2.2
    exact ⟨(h1.1.trans h2.1).trans h3.1, h3.2⟩

theorem monoInv_setPosition (s : THState) (np0 np1 np2 np3 : ℚ) (env : ProcEnv)
    (hI : Inv s) :
    Mono s (thSetPosition s np0 np1 np2 np3 env).s ∧
    Inv (thSetPosition s np0 np1 np2 np3 env).s := by
  have h1 := monoInv_fsg s env hI
  simp only [thSetPosition]
  split
  · exact h1
  · exact h1

theorem monoInv_registerLookahead (s : THState) (cbId : ℕ) (env : ProcEnv) (hI : Inv s) :
    Mono s (thRegisterLookahead s cbId env).s ∧ Inv (thRegisterLookahead s cbId env).s := by
  simp only [thRegisterLookahead]
  split
  next heq => exact monoInv_getLastMoveTime s env hI
  next last heq =>
    refine ⟨Mono.refl s, hI.1, ?_⟩
    intro m hm
    rcases List.mem_append.mp hm with h | h
    · exact hI.2 m (List.dropLast_subset _ h)
    · simp only [List.mem_singleton] at h
      subst h
      have hmem : last ∈ s.queue := by
        obtain ⟨hne, hx⟩ := List.mem_getLast?_eq_getLast (Option.mem_def.mpr heq)
        rw [hx]
        exact List.getLast_mem hne
      exact hI.2 last hmem

theorem monoInv_flushHandler (s : THState) (eventtime est : ℚ) (env : ProcEnv)
    (hI : Inv s) :
    Mono s (thFlushHandler s eventtime est env).s ∧
    Inv (thFlushHandler s eventtime est env).s := by
  have h1 := monoInv_fsg s env hI
  simp only [thFlushHandler]
  split
  · exact ⟨Mono.refl s, hI⟩
  · split
    · exact h1
    · split
      · exact h1
      · exact h1

theorem monoInv_waitMoves (s : THState) (env : ProcEnv) (hI : Inv s) :
    Mono s (thWaitMoves s env).s ∧ Inv (thWaitMoves s env).s :=
  monoInv_flushLookahead s env hI

theorem monoInv_dripMove (s : THState) (np0 np1 np2 np3 speed : ℚ) (env : DripMoveEnv)
    (hdur : 0 ≤ env.moveEnv.m.duration) (hI : Inv s) :
    Mono s (thDripMove s np0 np1 np2 np3 speed env).s ∧
    Inv (thDripMove s np0 np1 np2 np3 speed env).s := by
  have h1 := monoInv_dwell s s.kin_flush_delay env.dwellProc env.dwellStall hI
  simp only [thDripMove]
  split
  · exact h1
  · have h2 := monoInv_mqFlush (thDwell s s.kin_flush_delay env.dwellProc env.dwellStall).s
      false env.flushProc h1.2
    split
    · exact ⟨h1.1.trans h2.1, h2.2⟩
    · have h3 := monoInv_move
        (dripEnterState (mqFlush (thDwell s s.kin_flush_delay env.dwellProc
          env.dwellStall).s false env.flushProc).s)
        np0 np1 np2 np3 speed env.moveEnv hdur h2.2
      split
      next c heq =>
        have h4 := monoInv_fsg _ env.endProc h3.2
        exact ⟨((h1.1.trans h2.1).trans h3.1).trans h4.1, h4.2⟩
      next heq => exact ⟨(h1.1.trans h2.1).trans h3.1, h3.2⟩
      next heq =>
        have h5 := monoInv_mqFlush _ false env.flushProc h3.2
        split
        next heq5 =>
          have h6 := monoInv_fsg
            {(mqFlush (thMove (dripEnterState (mqFlush (thDwell s s.kin_flush_delay
                env.dwellProc env.dwellStall).s false env.flushProc).s)
                np0 np1 np2 np3 speed env.moveEnv).s false env.flushProc).s with
              queue := [], junction_flush := LOOKAHEAD_FLUSH_TIME}
            env.endProc ⟨h5.2.1, by intro m hm; exact absurd hm (List.not_mem_nil m)⟩
          exact ⟨(((h1.1.trans h2.1).trans h3.1).trans h5.1).trans h6.1, h6.2⟩
        next c heq5 => exact ⟨((h1.1.trans h2.1).trans h3.1).trans h5.1, h5.2⟩
        next heq5 =>
          have h6 := monoInv_fsg _ env.endProc h5.2
          exact ⟨(((h1.1.trans h2.1).trans h3.1).trans h5.1).trans h6.1, h6.2⟩

/-! ### Frame lemmas: fields untouched by queue processing -/

attribute [ext] THState

theorem thProcessMoves_frame (s : THState) (moves : List QMove) (env : ProcEnv) :
    ∃ sq nc tm p l,
      (thProcessMoves s moves env).s =
        {s with special_queuing_state := sq, need_check_stall := nc, flush_timer := tm, print_time := p, last_kin_move_time := l} := by
  cases hsq : s.special_queuing_state with
  | main =>
    simp only [thProcessMoves, hsq, ne_eq, eq_self_iff_true, not_true_eq_false,
      reduceCtorEq, not_false_eq_true, if_true, if_false, ite_true, ite_false,
      thCalcPrintTime_fst, thUpdateMoveTime_fst]
    exact ⟨_, _, _, _, _, rfl⟩
  | flushed =>
    simp only [thProcessMoves, hsq, ne_eq, eq_self_iff_true, not_true_eq_false,
      reduceCtorEq, not_false_eq_true, if_true, if_false, ite_true, ite_false,
      thCalcPrintTime_fst, thUpdateMoveTime_fst]
    exact ⟨_, _, _, _, _, rfl⟩
  | priming =>
    simp only [thProcessMoves, hsq, ne_eq, eq_self_iff_true, not_true_eq_false,
      reduceCtorEq, not_false_eq_true, if_true, if_false, ite_true, ite_false,
      thCalcPrintTime_fst, thUpdateMoveTime_fst]
    exact ⟨_, _, _, _, _, rfl⟩
  | drip =>
    simp only [thProcessMoves, hsq, ne_eq, eq_self_iff_true, not_true_eq_false,
      reduceCtorEq, not_false_eq_true, if_true, if_false, ite_true, ite_false,
      thCalcPrintTime_fst, thUpdateMoveTime_fst]
    obtain ⟨q, hq, _⟩ :=
      dripGo_shape (max s.print_time (minPrintTime s env.est) +
        (moves.map QMove.duration).sum) env.drip
        {s with print_time := max s.print_time (minPrintTime s env.est)}
    rw [hsq] at hq
    split
    · rw [hq]
      exact ⟨_, _, _, _, _, rfl⟩
    · rw [hq]
      exact ⟨_, _, _, _, _, rfl⟩

theorem mqFlush_frame (s : THState) (lazy : Bool) (env : ProcEnv) :
    ∃ sq nc tm p l q2,
      (mqFlush s lazy env).s =
        {s with special_queuing_state := sq, need_check_stall := nc, flush_timer := tm,
                print_time := p, last_kin_move_time := l, queue := q2,
                junction_flush := LOOKAHEAD_FLUSH_TIME} := by
  by_cases hq : s.queue.isEmpty
  · simp only [mqFlush, hq, Bool.false_eq_true, eq_self_iff_true, not_true_eq_false,
      not_false_eq_true, if_true, if_false, ite_true, ite_false]
    exact ⟨_, _, _, _, _, _, rfl⟩
  · by_cases hfc : flushCal s.queue.length lazy env.lazyCount = 0
    · simp only [mqFlush, hq, hfc, Bool.false_eq_true, eq_self_iff_true, not_true_eq_false,
        not_false_eq_true, if_true, if_false, ite_true, ite_false]
      exact ⟨_, _, _, _, _, _, rfl⟩
    · obtain ⟨sq, nc, tm, p, l, hshape⟩ :=
        thProcessMoves_frame {s with junction_flush := LOOKAHEAD_FLUSH_TIME}
          (s.queue.take (flushCal s.queue.length lazy env.lazyCount)) env
      simp only [mqFlush, hq, hfc, Bool.false_eq_true, eq_self_iff_true, not_true_eq_false,
        not_false_eq_true, if_true, if_false, ite_true, ite_false]
      split
      · rw [hshape]
        exact ⟨_, _, _, _, _, _, rfl⟩
      · rw [hshape]
        exact ⟨_, _, _, _, _, _, rfl⟩

theorem mqFlush_empty (s : THState) (lazy : Bool) (env : ProcEnv) (h : s.queue = []) :
    mqFlush s lazy env = ⟨{s with junction_flush := LOOKAHEAD_FLUSH_TIME}, [], Sig.ok⟩ := by
  simp [mqFlush, h]

theorem flushCal_false (n o : ℕ) : flushCal n false o = n := rfl

theorem mqFlush_false_ok_queue (s : THState) (env : ProcEnv)
    (h : (mqFlush s false env).sig = Sig.ok) :
    (mqFlush s false env).s.queue = [] := by
  by_cases hq : s.queue.isEmpty
  · rw [mqFlush_empty s false env (List.isEmpty_iff.mp hq)]
    exact List.isEmpty_iff.mp hq
  · by_cases hfc : s.queue.length = 0
    · exact absurd (List.isEmpty_iff_length_eq_zero.mpr hfc) hq
    · obtain ⟨sq, nc, tm, p, l, hshape⟩ :=
        thProcessMoves_frame {s with junction_flush := LOOKAHEAD_FLUSH_TIME} s.queue env
      simp only [mqFlush, hq, hfc, flushCal_false, List.take_length, Bool.false_eq_true,
        eq_self_iff_true, not_true_eq_false, not_false_eq_true, if_true, if_false,
        ite_true, ite_false] at h ⊢
      split at h
      next hsig =>
        rw [if_pos hsig, hshape]
        exact List.drop_length s.queue
      next hsig => exact absurd h hsig

/-! ### Idempotence of flush_step_generation -/

theorem fsg_fixed (s : THState) (env : ProcEnv)
    (hq : s.queue = [])
    (hjf : s.junction_flush = s.buffer_time_high)
    (hsp : s.special_queuing_state = SQState.flushed)
    (hnc : s.need_check_stall = -1)
    (htm : s.flush_timer = TimerSet.never)
    (hidle : s.idle_flush_print_time = 0)
    (h1 : s.last_kin_move_time + s.kin_flush_delay ≤ s.last_kin_flush_time)
    (h2 : s.print_time ≤ s.last_kin_flush_time + s.kin_flush_delay)
    (h3 : s.last_kin_flush_time ≤ s.print_time) :
    (thFlushStepGeneration s env).s = s ∧
    (thFlushStepGeneration s env).sig = Sig.ok := by
  have hft : max s.last_kin_flush_time
      (max (s.last_kin_move_time + s.kin_flush_delay)
        (s.print_time - s.kin_flush_delay)) = s.last_kin_flush_time :=
    max_eq_left (max_le h1 (by linarith))
  simp only [thFlushStepGeneration, mqFlush_empty s false env hq, ne_eq,
    eq_self_iff_true, not_true_eq_false, if_true, if_false, ite_true, ite_false,
    thUpdateMoveTime_fst]
  refine ⟨?_, trivial⟩
  ext
  case print_time =>
    simp only
    rw [hft, max_eq_left h3]
  case last_kin_move_time => rfl
  case last_kin_flush_time =>
    simp only
    rw [hft]
  case kin_flush_delay => rfl
  case special_queuing_state => exact hsp.symm
  case need_check_stall => exact hnc.symm
  case idle_flush_print_time => exact hidle.symm
  case print_stall => rfl
  case queue => rfl
  case junction_flush => exact hjf.symm
  case flush_timer => exact htm.symm
  case commanded_pos0 => rfl
  case commanded_pos1 => rfl
  case commanded_pos2 => rfl
  case commanded_pos3 => rfl
  case can_pause => rfl
  case buffer_time_low => rfl
  case buffer_time_high => rfl
  case buffer_time_start => rfl
  case move_flush_time => rfl

theorem fsg_post (s : THState) (env : ProcEnv) (hk : 0 ≤ s.kin_flush_delay)
    (hok : (mqFlush s false env).sig = Sig.ok) :
    (thFlushStepGeneration s env).s.queue = [] ∧
    (thFlushStepGeneration s env).s.junction_flush =
      (thFlushStepGeneration s env).s.buffer_time_high ∧
    (thFlushStepGeneration s env).s.special_queuing_state = SQState.flushed ∧
    (thFlushStepGeneration s env).s.need_check_stall = -1 ∧
    (thFlushStepGeneration s env).s.flush_timer = TimerSet.never ∧
    (thFlushStepGeneration s env).s.idle_flush_print_time = 0 ∧
    (thFlushStepGeneration s env).s.last_kin_move_time +
        (thFlushStepGeneration s env).s.kin_flush_delay ≤
      (thFlushStepGeneration s env).s.last_kin_flush_time ∧
    (thFlushStepGeneration s env).s.print_time ≤
      (thFlushStepGeneration s env).s.last_kin_flush_time +
        (thFlushStepGeneration s env).s.kin_flush_delay ∧
    (thFlushStepGeneration s env).s.last_kin_flush_time ≤
      (thFlushStepGeneration s env).s.print_time := by
  have hqe := mqFlush_false_ok_queue s env hok
  obtain ⟨sq, nc, tm, p, l, q2, hfr⟩ := mqFlush_frame s false env
  rw [hfr] at hqe
  simp only at hqe
  subst hqe
  simp only [thFlushStepGeneration, hok, ne_eq, eq_self_iff_true, not_true_eq_false,
    if_true, if_false, ite_true, ite_false, hfr, thUpdateMoveTime_fst]
  refine ⟨by trivial, by trivial, by trivial, by trivial, by trivial, by trivial, ?_, ?_, ?_⟩
  · exact le_max_of_le_right (le_max_left _ _)
  · apply max_le
    · have hM : p - s.kin_flush_delay ≤
          max s.last_kin_flush_time
            (max (l + s.kin_flush_delay) (p - s.kin_flush_delay)) :=
        le_max_of_le_right (le_max_right _ _)
      linarith
    · exact le_add_of_nonneg_right hk
  · exact le_max_right _ _

theorem thAddMove_cp (s : THState) (mmt dur : ℚ) (env : ProcEnv) :
    (thAddMove s mmt dur env).s.commanded_pos0 = s.commanded_pos0 ∧
    (thAddMove s mmt dur env).s.commanded_pos1 = s.commanded_pos1 ∧
    (thAddMove s mmt dur env).s.commanded_pos2 = s.commanded_pos2 ∧
    (thAddMove s mmt dur env).s.commanded_pos3 = s.commanded_pos3 := by
  simp only [thAddMove]
  split
  · exact ⟨rfl, rfl, rfl, rfl⟩
  · split
    · obtain ⟨sq, nc, tm, p, l, q2, hfr⟩ :=
        mqFlush_frame
          {s with queue := s.queue ++ [⟨mmt, dur, []⟩], junction_flush := s.junction_flush - mmt}
          true env
      rw [hfr]
      exact ⟨rfl, rfl, rfl, rfl⟩
    · exact ⟨rfl, rfl, rfl, rfl⟩

theorem thMoveTail_cp (s : THState) (env : MoveEnv) :
    (thMoveTail s env).s.commanded_pos0 = s.commanded_pos0 ∧
    (thMoveTail s env).s.commanded_pos1 = s.commanded_pos1 ∧
    (thMoveTail s env).s.commanded_pos2 = s.commanded_pos2 ∧
    (thMoveTail s env).s.commanded_pos3 = s.commanded_pos3 := by
  have h1 := thAddMove_cp s env.m.min_move_t env.m.duration env.proc
  simp only [thMoveTail]
  split
  · exact h1
  · split
    · obtain ⟨sq, nc, tm, ps, idle, hcs⟩ := thCheckStall_shape
        (thAddMove s env.m.min_move_t env.m.duration env.proc).s env.stall
      rw [hcs]
      exact h1
    · exact h1

/-! ### Move processing never invokes stored lookahead callbacks -/

theorem thCalcPrintTime_no_cb (s : THState) (now est : ℚ) :
    (thCalcPrintTime s now est).2.filter isCbEvent = [] := by
  by_cases h : s.print_time < minPrintTime s est
  · simp only [thCalcPrintTime, if_pos h]
    simp [isCbEvent]
  · simp only [thCalcPrintTime, if_neg h]
    rfl

theorem sg_map_no_cb (xs : List ℚ) :
    (xs.map Event.sgFlush).filter isCbEvent = [] := by
  induction xs with
  | nil => rfl
  | cons a t ih =>
    rw [List.map_cons, List.filter_cons_of_neg (by simp [isCbEvent])]
    exact ih

theorem thUpdateMoveTime_no_cb (s : THState) (next : ℚ) :
    (thUpdateMoveTime s next).2.filter isCbEvent = [] := by
  simp only [thUpdateMoveTime]
  exact sg_map_no_cb _

theorem thProcessMoves_no_cb (s : THState) (moves : List QMove) (env : ProcEnv) :
    (thProcessMoves s moves env).evs.filter isCbEvent = [] := by
  cases hsq : s.special_queuing_state with
  | main =>
    simp [thProcessMoves, hsq, List.filter_append, thCalcPrintTime_no_cb,
      thUpdateMoveTime_no_cb, thCalcPrintTime_fst]
  | flushed =>
    simp [thProcessMoves, hsq, List.filter_append, thCalcPrintTime_no_cb,
      thUpdateMoveTime_no_cb, thCalcPrintTime_fst]
  | priming =>
    simp [thProcessMoves, hsq, List.filter_append, thCalcPrintTime_no_cb,
      thUpdateMoveTime_no_cb, thCalcPrintTime_fst]
  | drip =>
    simp only [thProcessMoves, hsq, ne_eq, eq_self_iff_true, not_true_eq_false,
      reduceCtorEq, not_false_eq_true, if_true, if_false, ite_true, ite_false,
      thCalcPrintTime_fst]
    split <;>
      simp [List.filter_append, thCalcPrintTime_no_cb, thUpdateMoveTime_no_cb]

/-! ### Claim theorems -/

/-- C1 (code bug): a lookahead callback registered while the move queue is
nonempty never fires.  `register_lookahead_callback` attaches the callback
to the tail move, but `_process_moves` has its callback dispatch loop
commented out in this source, and `MoveQueue.flush` then discards the
processed entries (`Py_move_queue_del`, `del queue[:flush_count]`)
together with their callback lists.  First conjunct: processing a batch
never emits a callback invocation for any state.  Remaining conjuncts
evaluate the failing run: a callback (token 7) registered on the single
queued move is attached to its tail entry, and the following flush empties
the queue, succeeds, yet emits no callback event, contradicting the claim
that the callback fires exactly once with the move's end print time. -/
theorem c1_lookahead_callback_dropped :
    (∀ (s : THState) (moves : List QMove) (env : ProcEnv),
      (thProcessMoves s moves env).evs.filter isCbEvent = []) ∧
    (thRegisterLookahead {initState with queue := [⟨1, 1, []⟩]} 7
      (⟨0, 0, [], 0⟩ : ProcEnv)).s.queue = [⟨1, 1, [7]⟩] ∧
    (mqFlush (thRegisterLookahead {initState with queue := [⟨1, 1, []⟩]} 7
      (⟨0, 0, [], 0⟩ : ProcEnv)).s false (⟨0, 0, [], 0⟩ : ProcEnv)).s.queue = [] ∧
    (mqFlush (thRegisterLookahead {initState with queue := [⟨1, 1, []⟩]} 7
      (⟨0, 0, [], 0⟩ : ProcEnv)).s false (⟨0, 0, [], 0⟩ : ProcEnv)).evs.filter
        isCbEvent = [] ∧
    (mqFlush (thRegisterLookahead {initState with queue := [⟨1, 1, []⟩]} 7
      (⟨0, 0, [], 0⟩ : ProcEnv)).s false (⟨0, 0, [], 0⟩ : ProcEnv)).sig = Sig.ok :=
  ⟨thProcessMoves_no_cb, by with_unfolding_all decide, by with_unfolding_all decide, by with_unfolding_all decide, by with_unfolding_all decide⟩

/-- C2: the toolhead clock fields `print_time`, `last_kin_move_time` and
`last_kin_flush_time` are monotonically non-decreasing across every
sequence of public toolhead operations.  The invariant `Inv` (the last
kinematic move ends no later than the scheduled print time, and queued
moves have nonnegative durations) holds in the initial state and is
preserved by every valid operation, and each operation leaves each of the
three fields at least as large as before. -/
theorem c2_clock_monotonic :
    Inv initState ∧
    ∀ (s : THState) (op : Op), Inv s → OpValid op →
      Inv (step s op) ∧
      s.print_time ≤ (step s op).print_time ∧
      s.last_kin_move_time ≤ (step s op).last_kin_move_time ∧
      s.last_kin_flush_time ≤ (step s op).last_kin_flush_time := by
  constructor
  · exact ⟨le_rfl, by intro m hm; exact absurd hm (List.not_mem_nil m)⟩
  · intro s op hI hv
    have key : Mono s (runOp s op).s ∧ Inv (runOp s op).s := by
      cases op with
      | opMove np0 np1 np2 np3 speed env =>
        exact monoInv_move s np0 np1 np2 np3 speed env hv hI
      | opDwell delay env senv => exact monoInv_dwell s delay env senv hI
      | opFlushStepGeneration env => exact monoInv_fsg s env hI
      | opFlushHandler eventtime est env =>
        exact monoInv_flushHandler s eventtime est env hI
      | opDripMove np0 np1 np2 np3 speed env =>
        exact monoInv_dripMove s np0 np1 np2 np3 speed env hv hI
      | opSetPosition np0 np1 np2 np3 env =>
        exact monoInv_setPosition s np0 np1 np2 np3 env hI
      | opWaitMoves env => exact monoInv_waitMoves s env hI
      | opGetLastMoveTime env => exact monoInv_getLastMoveTime s env hI
      | opRegisterLookahead cbId env => exact monoInv_registerLookahead s cbId env hI
      | opCheckStall senv => exact monoInv_checkStall s senv hI
    exact ⟨key.2, key.1.1, key.1.2.1, key.1.2.2⟩

/-- C2 witness: the monotonicity theorem applied to a one-second dwell
from the initial state. -/
theorem c2_clock_monotonic_witness :
    Inv (step initState (Op.opDwell 1 ⟨0, 0, [], 0⟩ ⟨0, 0, []⟩)) ∧
    initState.print_time ≤
      (step initState (Op.opDwell 1 ⟨0, 0, [], 0⟩ ⟨0, 0, []⟩)).print_time ∧
    initState.last_kin_move_time ≤
      (step initState (Op.opDwell 1 ⟨0, 0, [], 0⟩ ⟨0, 0, []⟩)).last_kin_move_time ∧
    initState.last_kin_flush_time ≤
      (step initState (Op.opDwell 1 ⟨0, 0, [], 0⟩ ⟨0, 0, []⟩)).last_kin_flush_time :=
  c2_clock_monotonic.2 initState (Op.opDwell 1 ⟨0, 0, [], 0⟩ ⟨0, 0, []⟩)
    c2_clock_monotonic.1 trivial

/-- C3 counterexample: `_calc_print_time` does not rebase `print_time` to
`max(est + buffer_time_start, last_kin_flush_time + kin_flush_delay + MIN_KIN_TIME)`.
With `est = 0`, `buffer_time_start = 1/4`, `last_kin_flush_time = 10`,
`kin_flush_delay = 1` and `print_time = 0`, the claimed value `111/10`
exceeds the current print time, yet the code rebases to `11`, because it
adds `MIN_KIN_TIME` to the MCU estimate before the max with
`last_kin_flush_time`, not after it. -/
theorem c3_counterexample :
    ({initState with last_kin_flush_time := 10, kin_flush_delay := 1} : THState).print_time <
      max ((0 : ℚ) + (1/4)) (10 + 1 + MIN_KIN_TIME) ∧
    (thCalcPrintTime {initState with last_kin_flush_time := 10, kin_flush_delay := 1} 0 0).1.print_time = 11 ∧
    (thCalcPrintTime {initState with last_kin_flush_time := 10, kin_flush_delay := 1} 0 0).1.print_time ≠
      max ((0 : ℚ) + (1/4)) (10 + 1 + MIN_KIN_TIME) := by
  with_unfolding_all decide

/-- C3 amended: `_calc_print_time` rebases `print_time` to
`max(est + buffer_time_start, max(est + MIN_KIN_TIME, last_kin_flush_time) + kin_flush_delay)`
whenever that value exceeds the current print time (leaving it unchanged
otherwise), and emits `toolhead:sync_print_time(now, est, print_time)`
exactly in the rebasing case. -/
theorem c3_amended_calc_print_time (s : THState) (now est : ℚ) :
    (thCalcPrintTime s now est).1.print_time =
      max s.print_time (max (est + s.buffer_time_start)
        (max (est + MIN_KIN_TIME) s.last_kin_flush_time + s.kin_flush_delay)) ∧
    ((thCalcPrintTime s now est).2 ≠ [] ↔
      s.print_time < max (est + s.buffer_time_start)
        (max (est + MIN_KIN_TIME) s.last_kin_flush_time + s.kin_flush_delay)) ∧
    ∀ e ∈ (thCalcPrintTime s now est).2,
      e = Event.sync now est (max (est + s.buffer_time_start)
        (max (est + MIN_KIN_TIME) s.last_kin_flush_time + s.kin_flush_delay)) := by
  by_cases h : s.print_time < minPrintTime s est
  · refine ⟨?_, ?_, ?_⟩
    · simp only [thCalcPrintTime, if_pos h]
      exact (max_eq_right (le_of_lt h)).symm
    · simp only [thCalcPrintTime, if_pos h]
      exact iff_of_true (by simp) h
    · simp only [thCalcPrintTime, if_pos h]
      intro e he
      simp only [List.mem_singleton] at he
      exact he
  · refine ⟨?_, ?_, ?_⟩
    · simp only [thCalcPrintTime, if_neg h]
      exact (max_eq_left (not_lt.mp h)).symm
    · simp only [thCalcPrintTime, if_neg h]
      exact iff_of_false (by simp) h
    · simp only [thCalcPrintTime, if_neg h]
      intro e he
      exact absurd he (List.not_mem_nil e)

/-- C3 amended witness: at the counterexample state the rebasing branch
is taken and the sync event carries the rebased print time. -/
theorem c3_amended_calc_print_time_witness :
    Event.sync 0 0 11 =
      Event.sync 0 0 (max ((0 : ℚ) +
          ({initState with last_kin_flush_time := 10, kin_flush_delay := 1} : THState).buffer_time_start)
        (max ((0 : ℚ) + MIN_KIN_TIME)
          ({initState with last_kin_flush_time := 10, kin_flush_delay := 1} : THState).last_kin_flush_time +
          ({initState with last_kin_flush_time := 10, kin_flush_delay := 1} : THState).kin_flush_delay)) :=
  (c3_amended_calc_print_time
    {initState with last_kin_flush_time := 10, kin_flush_delay := 1} 0 0).2.2
    (Event.sync 0 0 11) (by with_unfolding_all decide)

/-- C4: calling `flush_step_generation()` twice in succession with no
intervening append is idempotent: whenever the first call returns
normally, the second call (under any environment) returns normally and
leaves the entire state record exactly as the first call left it. -/
theorem c4_flush_step_generation_idempotent (s : THState) (env env2 : ProcEnv)
    (hk : 0 ≤ s.kin_flush_delay) (s1 : THState) (ev : List Event)
    (h1 : thFlushStepGeneration s env = ⟨s1, ev, Sig.ok⟩) :
    (thFlushStepGeneration s1 env2).s = s1 ∧
    (thFlushStepGeneration s1 env2).sig = Sig.ok := by
  have hok : (mqFlush s false env).sig = Sig.ok := by
    by_contra hne
    have hfsg : thFlushStepGeneration s env = mqFlush s false env := by
      simp only [thFlushStepGeneration]
      rw [if_pos hne]
    rw [hfsg] at h1
    rw [h1] at hne
    exact hne rfl
  have hpost := fsg_post s env hk hok
  rw [h1] at hpost
  exact fsg_fixed s1 env2 hpost.1 hpost.2.1 hpost.2.2.1 hpost.2.2.2.1
    hpost.2.2.2.2.1 hpost.2.2.2.2.2.1 hpost.2.2.2.2.2.2.1
    hpost.2.2.2.2.2.2.2.1 hpost.2.2.2.2.2.2.2.2

set_option maxRecDepth 100000 in
/-- C4 witness: the idempotence theorem applied to the initial state. -/
theorem c4_flush_step_generation_idempotent_witness :
    (thFlushStepGeneration {initState with print_time := 1/1000, last_kin_flush_time := 1/1000} (⟨0, 0, [], 0⟩ : ProcEnv)).s =
      {initState with print_time := 1/1000, last_kin_flush_time := 1/1000} ∧
    (thFlushStepGeneration {initState with print_time := 1/1000, last_kin_flush_time := 1/1000} (⟨0, 0, [], 0⟩ : ProcEnv)).sig = Sig.ok :=
  c4_flush_step_generation_idempotent initState ⟨0, 0, [], 0⟩ ⟨0, 0, [], 0⟩ (by with_unfolding_all decide)
    {initState with print_time := 1/1000, last_kin_flush_time := 1/1000}
    [Event.sgFlush (1/1000)] (by with_unfolding_all decide)

/-- C5 counterexample: the decrement-and-trigger behaviour of `add_move`
does not apply to the first move placed into an empty queue.  Appending a
move with `min_move_t = 3` to the empty initial queue (countdown
`junction_flush = 2`) leaves the countdown at `2` instead of `2 - 3`, and
triggers no lazy flush even though the claimed decremented countdown
`2 - 3` is nonpositive. -/
theorem c5_counterexample :
    (thAddMove initState 3 0 (⟨0, 0, [], 0⟩ : ProcEnv)).s.junction_flush =
      initState.junction_flush ∧
    (thAddMove initState 3 0 (⟨0, 0, [], 0⟩ : ProcEnv)).evs = [] ∧
    initState.junction_flush - 3 ≤ 0 ∧
    initState.junction_flush ≠ initState.junction_flush - 3 := by
  with_unfolding_all decide

/-- C5 amended: `add_move` places the move at the tail; when the queue
already held at least one move it subtracts `min_move_t` from the
junction-flush countdown and calls `flush(lazy=True)` exactly when the
resulting countdown is nonpositive; the first move placed into an empty
queue is appended with no decrement and no flush. -/
theorem c5_amended_add_move (s : THState) (mmt dur : ℚ) (env : ProcEnv) :
    (s.queue = [] →
      thAddMove s mmt dur env =
        ⟨{s with queue := [⟨mmt, dur, []⟩]}, [], Sig.ok⟩) ∧
    (s.queue ≠ [] →
      ((Event.flushTrig ∈ (thAddMove s mmt dur env).evs ↔
          s.junction_flush - mmt ≤ 0) ∧
       (0 < s.junction_flush - mmt →
         thAddMove s mmt dur env =
           ⟨{s with queue := s.queue ++ [⟨mmt, dur, []⟩], junction_flush := s.junction_flush - mmt}, [], Sig.ok⟩))) := by
  by_cases hq : s.queue = []
  · refine ⟨fun _ => ?_, fun hne => absurd hq hne⟩
    simp [thAddMove, hq]
  · have hlen : ¬ (s.queue ++ [(⟨mmt, dur, []⟩ : QMove)]).length = 1 := by
      have h0 : s.queue.length ≠ 0 := fun h0 => hq (List.eq_nil_of_length_eq_zero h0)
      simp only [List.length_append, List.length_singleton]
      omega
    refine ⟨fun h => absurd h hq, fun _ => ?_⟩
    by_cases hjf : s.junction_flush - mmt ≤ 0
    · constructor
      · simp only [thAddMove, if_neg hlen, if_pos hjf]
        simp [hjf]
      · intro hpos
        linarith
    · constructor
      · simp only [thAddMove, if_neg hlen, if_neg hjf]
        simp [hjf]
      · intro _
        simp only [thAddMove, if_neg hlen, if_neg hjf]

/-- C5 amended witness: appending a second move with `min_move_t = 1`
decrements the countdown from 2 to 1 without flushing. -/
theorem c5_amended_add_move_witness :
    thAddMove {initState with queue := [⟨1, 0, []⟩]} 1 0 (⟨0, 0, [], 0⟩ : ProcEnv) =
      ⟨{({initState with queue := [⟨1, 0, []⟩]} : THState) with
          queue := [⟨1, 0, []⟩, ⟨1, 0, []⟩],
          junction_flush := ({initState with queue := [⟨1, 0, []⟩]} :
            THState).junction_flush - 1}, [], Sig.ok⟩ :=
  ((c5_amended_add_move {initState with queue := [⟨1, 0, []⟩]} 1 0
      (⟨0, 0, [], 0⟩ : ProcEnv)).2 (by with_unfolding_all decide)).2 (by with_unfolding_all decide)

/-- C6 counterexample: `cmd_M204` coerces `S = 100.5` to 100 even though
`100.5 > 100`, because the guard truncates the parameter with
`int(float(...))` before comparing with 100; the claim demands the
acceleration be set to `S` whenever `S > 100`. -/
theorem c6_counterexample :
    (100 : ℚ) < 201/2 ∧
    (cmd_M204 ⟨500, 3000, 1500, 1500, 5, 200, 0, false⟩
      (some (201/2)) none none).1.max_accel = 100 ∧
    (100 : ℚ) ≠ 201/2 := by
  with_unfolding_all decide

/-- C6 amended: with `S` given, `cmd_M204` coerces the acceleration to
100 exactly when the truncation toward zero of `S` is at most 100 and
differs from -1, sets it to `S` when the truncation exceeds 100, and
fails with a parameter error when the truncation equals -1 (which covers
`S = -1`, treated as the absent-parameter marker, and values in (-2, -1));
with `S` absent, the acceleration becomes `min(P, T)` when both are given
and positive, a given nonpositive `P` or `T` raises a parameter error, and
a missing `P` or `T` produces the `key73` InvalidCommand response; every
successful case stores the new `max_accel` and recomputes the junction
deviation. -/
theorem c6_amended_m204 (L : Limits) (S P T : Option ℚ) :
    cmd_M204 L S P T = m204Amended L S P T := by
  cases S with
  | some s =>
    simp only [cmd_M204, m204Amended]
    by_cases h1 : pytrunc s ≠ -1 ∧ pytrunc s ≤ 100
    · rw [if_pos h1, if_pos ⟨h1.2, h1.1⟩]
    · rw [if_neg h1]
      by_cases h2 : pytrunc s ≤ 100 ∧ pytrunc s ≠ -1
      · exact absurd ⟨h2.2, h2.1⟩ h1
      · rw [if_neg h2]
        by_cases h3 : 100 < pytrunc s
        · have hpos : ¬ s ≤ 0 := by
            intro hs
            have hnp : pytrunc s ≤ 0 := by
              unfold pytrunc
              split
              · exact Int.floor_nonpos hs
              · exact Int.ceil_le.mpr (by exact_mod_cast hs)
            omega
          rw [if_pos h3, if_neg hpos]
        · have ht : pytrunc s = -1 := by
            rcases not_and_or.mp h2 with h | h
            · exact absurd (not_le.mp h) h3
            · exact not_not.mp h
          have hs : s ≤ 0 := by
            by_contra hpos
            push_neg at hpos
            have : (0 : ℤ) ≤ pytrunc s := by
              unfold pytrunc
              rw [if_pos (le_of_lt hpos)]
              exact Int.floor_nonneg.mpr (le_of_lt hpos)
            omega
          rw [if_neg h3, if_pos hs]
  | none =>
    cases P <;> cases T <;> simp [cmd_M204, m204Amended]

/-- C8: `SET_VELOCITY_LIMIT` invoked with none of VELOCITY, ACCEL,
SQUARE_CORNER_VELOCITY, ACCEL_TO_DECEL reaches the no-argument response
path, whose status-message variable is commented out in the source, so
the command fails with an undefined-name error instead of reporting the
current limits; the state keeps its limits, with only the qmode flag
refreshed and the junction deviation recomputed from unchanged inputs. -/
theorem c8_svl_no_args_name_error (L : Limits) (qf : Bool) (qa qd : ℚ) :
    (cmd_SET_VELOCITY_LIMIT L qf qa qd none none none none).2 = GOut.nameError ∧
    (cmd_SET_VELOCITY_LIMIT L qf qa qd none none none none).1 =
      calcJunctionDeviation {L with qmode_flag := qf} := by
  simp [cmd_SET_VELOCITY_LIMIT]

/-- C7: every validation-error return code of the native move checker
(-2 must-home, -3 out-of-range, -4 extrusion temperature, -5 extrude-only
too long, -6 max cross-section) makes `ToolHead.move` raise before any
mutation: the four commanded positions and the move queue are exactly
those at entry, and the raised command error carries the code. -/
theorem c7_move_error_no_mutation (s : THState) (np0 np1 np2 np3 speed : ℚ)
    (env : MoveEnv)
    (h : env.rc = -2 ∨ env.rc = -3 ∨ env.rc = -4 ∨ env.rc = -5 ∨ env.rc = -6) :
    (thMove s np0 np1 np2 np3 speed env).s.commanded_pos0 = s.commanded_pos0 ∧
    (thMove s np0 np1 np2 np3 speed env).s.commanded_pos1 = s.commanded_pos1 ∧
    (thMove s np0 np1 np2 np3 speed env).s.commanded_pos2 = s.commanded_pos2 ∧
    (thMove s np0 np1 np2 np3 speed env).s.commanded_pos3 = s.commanded_pos3 ∧
    (thMove s np0 np1 np2 np3 speed env).s.queue = s.queue ∧
    (thMove s np0 np1 np2 np3 speed env).sig = Sig.cmdErr env.rc := by
  rcases h with h | h | h | h | h <;> simp [thMove, h]

/-- C7 witness: a must-home error (code -2) leaves position and queue
untouched. -/
theorem c7_move_error_no_mutation_witness :
    (thMove initState 1 2 3 4 5
      (⟨-2, ⟨0, 0, []⟩, ⟨0, 0, [], 0⟩, ⟨0, 0, []⟩⟩ : MoveEnv)).s.commanded_pos0 =
        initState.commanded_pos0 ∧
    (thMove initState 1 2 3 4 5
      (⟨-2, ⟨0, 0, []⟩, ⟨0, 0, [], 0⟩, ⟨0, 0, []⟩⟩ : MoveEnv)).s.commanded_pos1 =
        initState.commanded_pos1 ∧
    (thMove initState 1 2 3 4 5
      (⟨-2, ⟨0, 0, []⟩, ⟨0, 0, [], 0⟩, ⟨0, 0, []⟩⟩ : MoveEnv)).s.commanded_pos2 =
        initState.commanded_pos2 ∧
    (thMove initState 1 2 3 4 5
      (⟨-2, ⟨0, 0, []⟩, ⟨0, 0, [], 0⟩, ⟨0, 0, []⟩⟩ : MoveEnv)).s.commanded_pos3 =
        initState.commanded_pos3 ∧
    (thMove initState 1 2 3 4 5
      (⟨-2, ⟨0, 0, []⟩, ⟨0, 0, [], 0⟩, ⟨0, 0, []⟩⟩ : MoveEnv)).s.queue =
        initState.queue ∧
    (thMove initState 1 2 3 4 5
      (⟨-2, ⟨0, 0, []⟩, ⟨0, 0, [], 0⟩, ⟨0, 0, []⟩⟩ : MoveEnv)).sig =
        Sig.cmdErr (⟨-2, ⟨0, 0, []⟩, ⟨0, 0, [], 0⟩, ⟨0, 0, []⟩⟩ : MoveEnv).rc :=
  c7_move_error_no_mutation initState 1 2 3 4 5
    ⟨-2, ⟨0, 0, []⟩, ⟨0, 0, [], 0⟩, ⟨0, 0, []⟩⟩ (Or.inl rfl)

/-- C9: `_update_move_time(next_print_time)` always runs its loop body at
least once (at least one step-generator service pass is emitted), returns
with `print_time` equal to `next_print_time` exactly, and in particular
lowers `print_time` whenever `next_print_time` is below it at entry. -/
theorem c9_update_move_time_exact (s : THState) (next : ℚ) :
    (thUpdateMoveTime s next).1 = {s with print_time := next} ∧
    1 ≤ (thUpdateMoveTime s next).2.length ∧
    (next < s.print_time → (thUpdateMoveTime s next).1.print_time < s.print_time) := by
  refine ⟨thUpdateMoveTime_fst s next, ?_, ?_⟩
  · exact List.length_pos.mpr (thUpdateMoveTime_evs_ne_nil s next)
  · intro h
    rw [thUpdateMoveTime_fst]
    exact h

/-- C9 witness: a target below the current print time pulls the clock
backwards. -/
theorem c9_update_move_time_exact_witness :
    (thUpdateMoveTime {initState with print_time := 5} 1).1.print_time <
      ({initState with print_time := 5} : THState).print_time :=
  (c9_update_move_time_exact {initState with print_time := 5} 1).2.2 (by with_unfolding_all decide)

/-- C10: when the native validator returns code 1 (extruder-only move),
`ToolHead.move` updates only `commanded_pos[3]` to `newpos[3]`; the X, Y
and Z commanded positions are unchanged by the whole call, including the
queueing and stall-check tail. -/
theorem c10_extruder_only_move (s : THState) (np0 np1 np2 np3 speed : ℚ)
    (env : MoveEnv) (h : env.rc = 1) :
    (thMove s np0 np1 np2 np3 speed env).s.commanded_pos0 = s.commanded_pos0 ∧
    (thMove s np0 np1 np2 np3 speed env).s.commanded_pos1 = s.commanded_pos1 ∧
    (thMove s np0 np1 np2 np3 speed env).s.commanded_pos2 = s.commanded_pos2 ∧
    (thMove s np0 np1 np2 np3 speed env).s.commanded_pos3 = np3 := by
  simp only [thMove, h]
  rw [if_pos trivial]
  exact thMoveTail_cp {s with commanded_pos3 := np3} env

/-- C10 witness: an extruder-only move from the initial state moves only
the extruder coordinate. -/
theorem c10_extruder_only_move_witness :
    (thMove initState 1 2 3 4 5
      (⟨1, ⟨0, 0, []⟩, ⟨0, 0, [], 0⟩, ⟨0, 0, []⟩⟩ : MoveEnv)).s.commanded_pos0 =
        initState.commanded_pos0 ∧
    (thMove initState 1 2 3 4 5
      (⟨1, ⟨0, 0, []⟩, ⟨0, 0, [], 0⟩, ⟨0, 0, []⟩⟩ : MoveEnv)).s.commanded_pos1 =
        initState.commanded_pos1 ∧
    (thMove initState 1 2 3 4 5
      (⟨1, ⟨0, 0, []⟩, ⟨0, 0, [], 0⟩, ⟨0, 0, []⟩⟩ : MoveEnv)).s.commanded_pos2 =
        initState.commanded_pos2 ∧
    (thMove initState 1 2 3 4 5
      (⟨1, ⟨0, 0, []⟩, ⟨0, 0, [], 0⟩, ⟨0, 0, []⟩⟩ : MoveEnv)).s.commanded_pos3 = 4 :=
  c10_extruder_only_move initState 1 2 3 4 5
    ⟨1, ⟨0, 0, []⟩, ⟨0, 0, [], 0⟩, ⟨0, 0, []⟩⟩ rfl

end Klippy
